import Mathlib

/-!
# Chart pipeline (`src/components/Chart.js`)

A shallow embedding of the data-reduction pipeline of the `Chart` component:
validity filtering, stride sampling, IQR outlier filtering with its fallback,
the scale domains, the `defined` predicate of the line generator, and the
debounced resize handler.

JavaScript numbers are IEEE-754 doubles. A number other than `NaN` is a `Num`:
a finite value, carried as the rational it denotes, or an infinity. Every
arithmetic operation rounds its exact result to the nearest double, ties to
even, and overflows to an infinity (`roundDouble`); `NaN` is `none` in the
result of an operation. The sign of zero is not represented: no operation of
the component distinguishes `-0` from `0`. The `x` coordinates are only
compared, never computed with, and are carried as rationals.
-/

namespace Chart

/-! ## JavaScript numbers -/

/-- A JavaScript number other than `NaN`: a finite value or an infinity. -/
inductive Num where
  /-- The number `-Infinity`. -/
  | negInf
  /-- A finite number, with the rational value it denotes. -/
  | fin (q : ℚ)
  /-- The number `Infinity`. -/
  | posInf
  deriving DecidableEq

instance (n : Nat) : OfNat Num n := ⟨Num.fin (n : ℚ)⟩

/-- The comparison `a <= b` of two numbers that are not `NaN`. -/
def Num.le : Num → Num → Bool
  | .negInf, _ => true
  | _, .posInf => true
  | .fin a, .fin b => decide (a ≤ b)
  | _, _ => false

instance : LinearOrder Num where
  le a b := Num.le a b = true
  le_refl a := by cases a <;> simp [Num.le]
  le_trans a b c := by
    cases a <;> cases b <;> cases c <;> simp [Num.le]
    exact le_trans
  le_antisymm a b := by
    cases a <;> cases b <;> simp [Num.le]
    exact le_antisymm
  le_total a b := by
    cases a <;> cases b <;> simp [Num.le]
    exact le_total _ _
  decidableLE a b := inferInstanceAs (Decidable (Num.le a b = true))

instance (a b : Num) : Decidable (a ≤ b) :=
  inferInstanceAs (Decidable (Num.le a b = true))

instance (a b : Num) : Decidable (a < b) :=
  inferInstanceAs (Decidable (Num.le a b = true ∧ ¬ Num.le b a = true))

/-- Floor of the binary logarithm of `n`, by halving, with `fuel` steps
available. -/
def log2From : Nat → Nat → Nat
  | 0, _ => 0
  | fuel + 1, n => if n < 2 then 0 else log2From fuel (n / 2) + 1

/-- Floor of the binary logarithm of `n` (`0` for `n = 0`). -/
def log2Nat (n : Nat) : Nat :=
  log2From n n

/-- The integer nearest to `m`, a tie going to the even one. -/
def roundHalfEven (m : ℚ) : ℤ :=
  if m - ⌊m⌋ < 1 / 2 then ⌊m⌋
  else if 1 / 2 < m - ⌊m⌋ then ⌊m⌋ + 1
  else if ⌊m⌋ % 2 = 0 then ⌊m⌋ else ⌊m⌋ + 1

/-- Binary exponent of a positive rational `q`: the `e` with
`2^e <= q < 2^(e+1)`. -/
def expOf (q : ℚ) : ℤ :=
  let e0 : ℤ := (log2Nat q.num.natAbs : ℤ) - (log2Nat q.den : ℤ)
  if (2 : ℚ) ^ e0 ≤ q then e0 else e0 - 1

/-- Spacing of the doubles around a positive `q`: 53 significant bits, and
`2^-1074` in the subnormal range. -/
def quantum (q : ℚ) : ℚ :=
  (2 : ℚ) ^ max (expOf q - 52) (-1074)

/-- The multiple of `g` nearest to `q`, a tie going to the even multiple. -/
def roundAt (g q : ℚ) : ℚ :=
  (roundHalfEven (q / g) : ℚ) * g

/-- Rounding of a non-negative rational to the double grid, before the
overflow test. -/
def roundMagnitude (q : ℚ) : ℚ :=
  roundAt (quantum q) q

/-- Rounding of a rational to the double grid (sign and magnitude), before
the overflow test. -/
def roundFinite (q : ℚ) : ℚ :=
  if 0 ≤ q then roundMagnitude q else - roundMagnitude (-q)

/-- Overflow of a rounded result: a magnitude of `2^1024` or more is an
infinity. -/
def overflow (r : ℚ) : Num :=
  if (2 : ℚ) ^ (1024 : ℤ) ≤ r then Num.posInf
  else if r ≤ -(2 : ℚ) ^ (1024 : ℤ) then Num.negInf
  else Num.fin r

/-- The double nearest to the rational `q` (round to nearest, ties to even),
as every IEEE-754 operation delivers for its exact result `q`. -/
def roundDouble (q : ℚ) : Num :=
  overflow (roundFinite q)

/-- The number a decimal literal of the source or of the input denotes, such
as `0.1`. -/
def lit (q : ℚ) : Num :=
  roundDouble q

/-- The rational `q` is the value of a finite double. -/
def IsDouble (q : ℚ) : Prop :=
  roundDouble q = Num.fin q

instance (q : ℚ) : Decidable (IsDouble q) :=
  inferInstanceAs (Decidable (roundDouble q = Num.fin q))

/-- The negation `-a`. -/
def Num.neg : Num → Num
  | .negInf => .posInf
  | .fin a => .fin (-a)
  | .posInf => .negInf

/-- The sum `a + b` of two numbers that are not `NaN`; `none` is `NaN`. -/
def Num.add : Num → Num → Option Num
  | .fin a, .fin b => some (roundDouble (a + b))
  | .posInf, .negInf => none
  | .negInf, .posInf => none
  | .posInf, _ => some .posInf
  | _, .posInf => some .posInf
  | .negInf, _ => some .negInf
  | _, .negInf => some .negInf

/-- The difference `a - b` of two numbers that are not `NaN`. -/
def Num.sub (a b : Num) : Option Num :=
  Num.add a (Num.neg b)

/-- The product of an infinity of sign `positive` with the finite `a`. -/
def Num.infMul (positive : Bool) (a : ℚ) : Option Num :=
  if a = 0 then none
  else if decide (0 < a) == positive then some .posInf else some .negInf

/-- The product `a * b` of two numbers that are not `NaN`. -/
def Num.mul : Num → Num → Option Num
  | .fin a, .fin b => some (roundDouble (a * b))
  | .posInf, .fin b => Num.infMul true b
  | .negInf, .fin b => Num.infMul false b
  | .fin a, .posInf => Num.infMul true a
  | .fin a, .negInf => Num.infMul false a
  | .posInf, .posInf => some .posInf
  | .negInf, .negInf => some .posInf
  | .posInf, .negInf => some .negInf
  | .negInf, .posInf => some .negInf

/-- JavaScript `x + y` on numbers, `none` being `NaN` (or `undefined`, which
arithmetic turns into `NaN`). -/
def jsAdd (x y : Option Num) : Option Num :=
  match x, y with
  | some a, some b => Num.add a b
  | _, _ => none

/-- JavaScript `x - y` on numbers. -/
def jsSub (x y : Option Num) : Option Num :=
  match x, y with
  | some a, some b => Num.sub a b
  | _, _ => none

/-- JavaScript `x * y` on numbers. -/
def jsMul (x y : Option Num) : Option Num :=
  match x, y with
  | some a, some b => Num.mul a b
  | _, _ => none

/-! ## Data model -/

/-- A JavaScript value found in the `y` position of an input entry. -/
inductive YVal where
  /-- The value `null`. -/
  | null
  /-- A number other than `NaN`. -/
  | num (v : Num)
  /-- The number `NaN`. -/
  | nan
  /-- A value whose type is not number and that is not `null`
  (for instance `undefined`). -/
  | other
  deriving DecidableEq

/-- Single-series entry `[x, y]`. -/
abbrev Point := ℚ × YVal

/-- Multi-series entry `[x, [y0, y1, y2]]`. -/
abbrev MultiPoint := ℚ × List YVal

/-- The test `v !== null`. -/
def YVal.notNull : YVal → Bool
  | .null => false
  | _ => true

/-- The test `typeof v === "number"`. -/
def YVal.isNumberType : YVal → Bool
  | .num _ => true
  | .nan => true
  | _ => false

/-- The call `isNaN(v)`: `null` coerces to `0`, `other` coerces to `NaN`. -/
def YVal.isNaN : YVal → Bool
  | .num _ => false
  | .null => false
  | _ => true

/-- The callback of the validity filters:
`d[1] !== null && typeof d[1] === "number" && !isNaN(d[1])`. -/
def isValid (d : Point) : Bool :=
  d.2.notNull && d.2.isNumberType && !d.2.isNaN

/-- The loop of `Array.prototype.filter` with a callback `(element, index)`,
started at index `i`. -/
def filterIdxFrom {α : Type} (p : α → Nat → Bool) : Nat → List α → List α
  | _, [] => []
  | i, x :: xs =>
    if p x i then x :: filterIdxFrom p (i + 1) xs else filterIdxFrom p (i + 1) xs

/-- The call `arr.filter((d, i) => p(d, i))`. -/
def jsFilter {α : Type} (arr : List α) (p : α → Nat → Bool) : List α :=
  filterIdxFrom p 0 arr

/-! ## Sampling -/

/-- The constant `targetPoints = 200`. -/
def targetPoints : Nat := 200

/-- The stride `Math.max(1, Math.floor(length / targetPoints))`. -/
def sampleRate (length : Nat) : Nat :=
  max 1 (length / targetPoints)

/-- The call `arr.filter((_, i) => i % rate === 0)`. -/
def sampleEvery {α : Type} (rate : Nat) (arr : List α) : List α :=
  jsFilter arr (fun _ i => i % rate == 0)

/-- The array `validData` of `renderSingleSeriesChart`. -/
def validData (data : List Point) : List Point :=
  data.filter isValid

/-- The array `sampledData` of `renderSingleSeriesChart`. -/
def sampledData (data : List Point) : List Point :=
  sampleEvery (sampleRate (validData data).length) (validData data)

/-- Ceiling of `a / b` on naturals, as the specification writes `ceil(L / s)`. -/
def ceilDiv (a b : Nat) : Nat :=
  (a + b - 1) / b

/-- Distance from `i` up to the next multiple of `s` (used to state the
index lemma of the stride filter). -/
def toNextMultiple (s i : Nat) : Nat :=
  (s - i % s) % s

/-! ## Library functions of d3 used by the component -/

/-- Modelled from the spec: `numbers` of d3-array (the d3 library is not under
`src/`); it keeps the entries that are numbers, infinities included, and drops
`null`, `NaN` and `undefined`. -/
def numbers (values : List YVal) : List Num :=
  values.filterMap fun
    | .num v => some v
    | _ => none

/-- One iteration of the loop of `d3.min`: `min` is replaced by `value` when
it is still `undefined` (`none`) or greater than `value`. -/
def minStep {α : Type} [LinearOrder α] (min : Option α) (value : α) : Option α :=
  match min with
  | none => some value
  | some m => if value < m then some value else some m

/-- One iteration of the loop of `d3.max`. -/
def maxStep {α : Type} [LinearOrder α] (max : Option α) (value : α) : Option α :=
  match max with
  | none => some value
  | some m => if m < value then some value else some m

/-- The loop of `d3.min` over comparable values, `none` (JavaScript
`undefined`) when there is none. -/
def minOf {α : Type} [LinearOrder α] (values : List α) : Option α :=
  values.foldl minStep none

/-- The loop of `d3.max` over comparable values. -/
def maxOf {α : Type} [LinearOrder α] (values : List α) : Option α :=
  values.foldl maxStep none

/-- The pair `[min, max]` of `d3.extent` over comparable values, `none`
standing for `[undefined, undefined]`. -/
def extentOf {α : Type} [LinearOrder α] (values : List α) : Option (α × α) :=
  match minOf values, maxOf values with
  | some lo, some hi => some (lo, hi)
  | _, _ => none

/-- Modelled from the spec: `d3.min` (the d3 library is not under `src/`), the
least of the numeric entries. -/
def d3min (values : List YVal) : Option Num :=
  minOf (numbers values)

/-- Modelled from the spec: `d3.max`, the greatest of the numeric entries. -/
def d3max (values : List YVal) : Option Num :=
  maxOf (numbers values)

/-- Modelled from the spec: `d3.extent(values)`, the pair `[min, max]` of the
numeric entries. -/
def d3extent (values : List YVal) : Option (Num × Num) :=
  extentOf (numbers values)

/-- The interpolation `value0 + (value1 - value0) * (i - i0)` of the quantile,
in double arithmetic, on the ascending values `sorted` and the position `i`,
with `i0 = Math.floor(i)`. -/
def interpolate (sorted : List Num) (i : ℚ) : Option Num :=
  let i0 : Nat := ⌊i⌋.toNat
  let value0 := sorted.getD i0 0
  let value1 := sorted.getD (i0 + 1) 0
  jsAdd (some value0)
    (jsMul (jsSub (some value1) (some value0)) (jsSub (some (.fin i)) (some (.fin (i0 : ℚ)))))

/-- Modelled from the spec: `d3.quantile(values, p)`, the "standard
linear-interpolation quantile estimator" of §4.3, for a finite `p`. The
numeric entries are put in ascending order; with `n` of them and
`i = (n - 1) * p`, `i0 = floor(i)`, the result is
`v[i0] + (v[i0+1] - v[i0]) * (i - i0)`, every operation in double arithmetic.
No entry gives `undefined` (`none`); a single entry, or `p <= 0`, gives the
minimum; `p >= 1` gives the maximum. -/
def d3quantile (values : List YVal) (p : ℚ) : Option Num :=
  let vs := numbers values
  let n := vs.length
  if n = 0 then none
  else if p ≤ 0 ∨ n < 2 then d3min values
  else if 1 ≤ p then d3max values
  else
    match roundDouble (((n : ℚ) - 1) * p) with
    | .fin i => interpolate (vs.insertionSort (fun a b : Num => a ≤ b)) i
    | _ => none

/-! ## Outlier filter and fallback -/

/-- The coercion `ToNumber` as applied by `>=` and `<=`: `null` becomes `0`,
`NaN` and `undefined` become `NaN` (`none`). -/
def YVal.toNumber : YVal → Option Num
  | .num v => some v
  | .null => some 0
  | _ => none

/-- The comparison `a >= b`, where `b` is a number or `NaN` (`none`). -/
def jsGe (a : YVal) (b : Option Num) : Bool :=
  match a.toNumber, b with
  | some x, some y => decide ((y : Num) ≤ x)
  | _, _ => false

/-- The comparison `a <= b`, where `b` is a number or `NaN` (`none`). -/
def jsLe (a : YVal) (b : Option Num) : Bool :=
  match a.toNumber, b with
  | some x, some y => decide ((x : Num) ≤ y)
  | _, _ => false

/-- The value `lowerBound = q1 - 1.5 * iqr` computed from the points `pts`,
with `iqr = q3 - q1`. -/
def lowerBound (pts : List Point) : Option Num :=
  let values := pts.map (fun d => d.2)
  let q1 := d3quantile values (1 / 4)
  let q3 := d3quantile values (3 / 4)
  let iqr := jsSub q3 q1
  jsSub q1 (jsMul (some (lit (3 / 2))) iqr)

/-- The value `upperBound = q3 + 1.5 * iqr` computed from the points `pts`. -/
def upperBound (pts : List Point) : Option Num :=
  let values := pts.map (fun d => d.2)
  let q1 := d3quantile values (1 / 4)
  let q3 := d3quantile values (3 / 4)
  let iqr := jsSub q3 q1
  jsAdd q3 (jsMul (some (lit (3 / 2))) iqr)

/-- The function `filterOutliers` of `renderMultiSeriesChart`; the
single-series path has the same statements inline (lines 81 to 90). -/
def filterOutliers (data : List Point) : List Point :=
  data.filter (fun d => jsGe d.2 (lowerBound data) && jsLe d.2 (upperBound data))

/-- The array `filteredData` of `renderSingleSeriesChart`. -/
def filteredData (data : List Point) : List Point :=
  filterOutliers (sampledData data)

/-- The array `finalData` of `renderSingleSeriesChart`:
`filteredData.length > 50 ? filteredData : sampledData`. -/
def finalData (data : List Point) : List Point :=
  if (filteredData data).length > 50 then filteredData data else sampledData data

/-! ## Single-series scales -/

/-- Domain of `xScale` in `renderSingleSeriesChart`:
`d3.extent(finalData, d => d[0])`. -/
def xDomain (data : List Point) : Option (ℚ × ℚ) :=
  extentOf ((finalData data).map (fun d => d.1))

/-- The pair `yExtent` of `renderSingleSeriesChart`:
`d3.extent(finalData, d => d[1])`. -/
def yExtent (data : List Point) : Option (Num × Num) :=
  d3extent ((finalData data).map (fun d => d.2))

/-- The padded domain `[lo - pad, hi + pad]` with `pad = (hi - lo) * factor`,
in double arithmetic; an end is `none` when it is `NaN`. -/
def paddedDomain (lo hi : Option Num) (factor : Num) : Option Num × Option Num :=
  let padding := jsMul (jsSub hi lo) (some factor)
  (jsSub lo padding, jsAdd hi padding)

/-- Domain of `yScale` in `renderSingleSeriesChart`:
`[yExtent[0] - yPadding, yExtent[1] + yPadding]` with
`yPadding = (yExtent[1] - yExtent[0]) * 0.1`. -/
def yDomain (data : List Point) : Option Num × Option Num :=
  paddedDomain ((yExtent data).map Prod.fst) ((yExtent data).map Prod.snd) (lit (1 / 10))

/-! ## Multi-series path -/

/-- The series `k` of `renderMultiSeriesChart` (`series1`, `series2`, `series3`
are `k = 0, 1, 2`): `data.map(d => [d[0], d[1][k]])` followed by the validity
filter; a missing array entry is `undefined`. -/
def seriesAt (k : Nat) (data : List MultiPoint) : List Point :=
  (data.map (fun d => (d.1, d.2.getD k YVal.other))).filter isValid

/-- The sampled series `k` (`sampledSeries1..3`): the stride is computed from
`data.length`. -/
def sampledSeriesAt (k : Nat) (data : List MultiPoint) : List Point :=
  sampleEvery (sampleRate data.length) (seriesAt k data)

/-- The filtered series `k` (`filteredSeries1..3`). -/
def filteredSeriesAt (k : Nat) (data : List MultiPoint) : List Point :=
  filterOutliers (sampledSeriesAt k data)

/-- The final series `k` (`finalSeries1..3`), the one that is drawn. -/
def finalSeriesAt (k : Nat) (data : List MultiPoint) : List Point :=
  if (filteredSeriesAt k data).length > 50 then filteredSeriesAt k data
  else sampledSeriesAt k data

/-- Domain of `xScale` in `renderMultiSeriesChart`: `d3.extent(data, d => d[0])`. -/
def xDomainMulti (data : List MultiPoint) : Option (ℚ × ℚ) :=
  extentOf (data.map (fun d => d.1))

/-- The array `allValues` of `renderMultiSeriesChart`. -/
def allValues (data : List MultiPoint) : List YVal :=
  ((filteredSeriesAt 0 data).map (fun d => d.2)
    ++ (filteredSeriesAt 1 data).map (fun d => d.2)
    ++ (filteredSeriesAt 2 data).map (fun d => d.2)).filter (fun v => v.notNull)

/-- Domain of `yScale` in `renderMultiSeriesChart`:
`[yMin - yPadding, yMax + yPadding]` with `yPadding = (yMax - yMin) * 0.15`,
`yMin` and `yMax` being `d3.min` and `d3.max` of `allValues`. -/
def yDomainMulti (data : List MultiPoint) : Option Num × Option Num :=
  paddedDomain (d3min (allValues data)) (d3max (allValues data)) (lit (3 / 20))

/-- The points that are drawn for a multi-series input: those of the three
final series. -/
def drawnPoints (data : List MultiPoint) : List Point :=
  finalSeriesAt 0 data ++ finalSeriesAt 1 data ++ finalSeriesAt 2 data

/-! ## Line generator -/

/-- The `defined` callback of the line generators: `d[1] !== null`. -/
def lineDefined (d : Point) : Bool :=
  d.2.notNull

/-- Modelled from the spec: the loop of `d3.line` (the d3 library is not under
`src/`), which starts a sub-path at the first defined point of a run and ends
it at the first point that is not defined; `cur` is the sub-path being drawn. -/
def lineRuns (defined : Point → Bool) : List Point → Option (List Point) → List (List Point)
  | [], none => []
  | [], some run => [run]
  | d :: ds, none =>
    if defined d then lineRuns defined ds (some [d]) else lineRuns defined ds none
  | d :: ds, some run =>
    if defined d then lineRuns defined ds (some (run ++ [d]))
    else run :: lineRuns defined ds none

/-- The sub-paths drawn for the single-series chart: `line(finalData)`. -/
def subPaths (data : List Point) : List (List Point) :=
  lineRuns lineDefined (finalData data) none

/-! ## Debounced resize handler -/

/-- A pending timer of the host: its handle and the time (ms) it is due. -/
structure Timer where
  id : Nat
  due : Nat
  deriving DecidableEq

/-- State of the effect of `Chart`: the host's pending timers, the variable
`resizeTimeout` (`none` is `undefined`), the next fresh timer handle, and the
times at which the timer callback has called `renderChart`. -/
structure ResizeState where
  timers : List Timer
  resizeTimeout : Option Nat
  nextId : Nat
  renders : List Nat
  deriving DecidableEq

/-- State right after the effect has run: no timer, `resizeTimeout` undefined. -/
def ResizeState.init : ResizeState :=
  { timers := [], resizeTimeout := none, nextId := 1, renders := [] }

/-- The call `clearTimeout(handle)`: removes the pending timer with that handle, if any. -/
def clearTimeout (handle : Option Nat) (timers : List Timer) : List Timer :=
  timers.filter (fun t => some t.id != handle)

/-- Debounce delay: `100` ms. -/
def resizeDelay : Nat := 100

/-- The handler `handleResize` called at time `now`:
`clearTimeout(resizeTimeout); resizeTimeout = setTimeout(..., 100)`. -/
def handleResize (now : Nat) (s : ResizeState) : ResizeState :=
  { timers := clearTimeout s.resizeTimeout s.timers ++ [{ id := s.nextId, due := now + resizeDelay }]
    resizeTimeout := some s.nextId
    nextId := s.nextId + 1
    renders := s.renders }

/-- The host runs the callbacks of the timers that are due at time `now`: each
is removed and its callback calls `renderChart` (recorded with its due time). -/
def fireDue (now : Nat) (s : ResizeState) : ResizeState :=
  { s with
    timers := s.timers.filter (fun t => decide (now < t.due))
    renders := s.renders ++ ((s.timers.filter (fun t => decide (t.due ≤ now))).map (fun t => t.due)) }

/-- A resize signal at time `t`: timers due by then run first, then the
handler. -/
def onResize (t : Nat) (s : ResizeState) : ResizeState :=
  handleResize t (fireDue t s)

/-- The states after each of the resize signals `ts` (times in ms), in order. -/
def resizeTrace : List Nat → ResizeState → List ResizeState
  | [], _ => []
  | t :: ts, s => onResize t s :: resizeTrace ts (onResize t s)

/-- The state after the resize signals `ts`. -/
def afterSignals (ts : List Nat) (s : ResizeState) : ResizeState :=
  ts.foldl (fun st t => onResize t st) s

/-- No further signal follows: every pending timer runs. -/
def settle (s : ResizeState) : ResizeState :=
  { s with
    timers := []
    renders := s.renders ++ s.timers.map (fun t => t.due) }

/-- Consecutive signals are less than 100 ms apart (and in time order). -/
def closeSignals : List Nat → Bool
  | [] => true
  | [_] => true
  | a :: b :: rest => decide (a ≤ b) && decide (b < a + resizeDelay) && closeSignals (b :: rest)

/-! ## Specification-side definitions -/

/-- Quantile as the specification words it, evaluated in the double arithmetic
of the code: for the values in ascending order `v` of length `n`, with
`h = (n - 1) * p` and `i0 = floor(h)`, the value
`v[i0] + (v[i0+1] - v[i0]) * (h - i0)`. -/
def specQuantile (values : List Num) (p : ℚ) : Option Num :=
  let v := values.insertionSort (fun a b : Num => a ≤ b)
  match roundDouble (((v.length : ℚ) - 1) * p) with
  | .fin h =>
    let i0 : Nat := ⌊h⌋.toNat
    jsAdd (some (v.getD i0 0))
      (jsMul (jsSub (some (v.getD (i0 + 1) 0)) (some (v.getD i0 0)))
        (jsSub (some (.fin h)) (some (.fin (i0 : ℚ)))))
  | _ => none

/-- The set `F` of the specification, evaluated in the double arithmetic of
the code: the subsequence of `S` whose values `v` satisfy
`Q1 - 1.5 * IQR <= v <= Q3 + 1.5 * IQR`, with `Q1`, `Q3` the 0.25 and 0.75
quantiles of the values of `S` and `IQR = Q3 - Q1`. -/
def specOutlierFilter (S : List Point) : List Point :=
  let values := numbers (S.map (fun d => d.2))
  let Q1 := specQuantile values (1 / 4)
  let Q3 := specQuantile values (3 / 4)
  let IQR := jsSub Q3 Q1
  let lower := jsSub Q1 (jsMul (some (lit (3 / 2))) IQR)
  let upper := jsAdd Q3 (jsMul (some (lit (3 / 2))) IQR)
  S.filter fun d =>
    match d.2, lower, upper with
    | .num v, some l, some u => decide ((l : Num) ≤ v) && decide ((v : Num) ≤ u)
    | _, _, _ => false

/-- The finite `y` values of the points `S`, as rationals. -/
def finiteValues (S : List Point) : List ℚ :=
  S.filterMap fun d =>
    match d.2 with
    | .num (.fin q) => some q
    | _ => none

/-- Quantile as the specification words it, in exact arithmetic. -/
def exactQuantile (values : List ℚ) (p : ℚ) : ℚ :=
  let v := values.insertionSort (fun a b : ℚ => a ≤ b)
  let h : ℚ := ((v.length : ℚ) - 1) * p
  let i0 : Nat := ⌊h⌋.toNat
  v.getD i0 0 + (v.getD (i0 + 1) 0 - v.getD i0 0) * (h - (i0 : ℚ))

/-- The set `F` of the specification with `Q1`, `Q3`, `IQR` and the bounds
computed in exact arithmetic from the (finite) values of `S`. -/
def exactOutlierFilter (S : List Point) : List Point :=
  let values := finiteValues S
  let Q1 := exactQuantile values (1 / 4)
  let Q3 := exactQuantile values (3 / 4)
  let IQR := Q3 - Q1
  S.filter fun d =>
    match d.2 with
    | .num (.fin v) => decide (Q1 - 3 / 2 * IQR ≤ v) && decide (v ≤ Q3 + 3 / 2 * IQR)
    | _ => false

/-- Every `y` of `data` that is a number is a finite double. -/
def finiteDoubles (data : List Point) : Bool :=
  data.all fun d =>
    match d.2 with
    | .num (.fin q) => decide (IsDouble q)
    | .num _ => false
    | _ => true

/-! ## Inputs of the evaluations -/

/-- The worked example of the specification:
`[[0,1],[1,2],[2,100],[3,3],[4,4]]`. -/
def exampleSingle : List Point :=
  [(0, .num 1), (1, .num 2), (2, .num 100), (3, .num 3), (4, .num 4)]

/-- A single-series input of 53 points: `[i, 0.1]` for `i = 0 .. 13`,
`[i, 1.3]` for `i = 14 .. 51`, and `[52, 3.1]`. -/
def roundingInput : List Point :=
  (List.range 14).map (fun (i : Nat) => ((i : ℚ), YVal.num (lit (1 / 10))))
    ++ (List.range 38).map (fun (i : Nat) => ((i : ℚ) + 14, YVal.num (lit (13 / 10))))
    ++ [(52, YVal.num (lit (31 / 10)))]

/-- A single-series input of `n` valid points `[i, i]`, `i = 0 .. n-1`. -/
def densePoints (n : Nat) : List Point :=
  (List.range n).map (fun (i : Nat) => ((i : ℚ), YVal.num (Num.fin (i : ℚ))))

/-- A multi-series input of 400 entries in which the first series has a number
in the first two entries only: two full entries followed by 398 entries whose
three values are `null`. -/
def sparseMulti : List MultiPoint :=
  [(0, [.num 1, .num 1, .num 1]), (1, [.num 2, .num 2, .num 2])]
    ++ List.replicate 398 (2, [.null, .null, .null])

/-- A single-series input with one point, `[[0, 1]]`. -/
def onePoint : List Point :=
  [(0, .num 1)]

/-- A single-series input with two values one unit in the last place apart:
`[[0, 0.3], [1, 0.30000000000000004]]`. -/
def nearPoints : List Point :=
  [(0, .num (lit (3 / 10))), (1, .num (lit (30000000000000004 / 100000000000000000)))]

/-- A single-series input whose only value is `Infinity` (the JSON number
`1e999`). -/
def infinitePoint : List Point :=
  [(0, .num .posInf)]

/-- A multi-series input of five entries whose first series is the worked
example of the specification (with the outlier `100` at `x = 2`):
`[[0,[1,1,1]],[1,[2,2,2]],[2,[100,3,3]],[3,[3,4,4]],[4,[4,5,5]]]`. -/
def outlierMulti : List MultiPoint :=
  [(0, [.num 1, .num 1, .num 1]), (1, [.num 2, .num 2, .num 2]),
   (2, [.num 100, .num 3, .num 3]), (3, [.num 3, .num 4, .num 4]),
   (4, [.num 4, .num 5, .num 5])]

/-- A multi-series input whose second entry has only `null` values. -/
def gapMulti : List MultiPoint :=
  [(0, [.num 1, .num 1, .num 1]), (1, [.null, .null, .null])]

/-- A single-series input with a `null` between two numbers:
`[[0, 1], [1, null], [2, 3]]`. -/
def gapSingle : List Point :=
  [(0, .num 1), (1, .null), (2, .num 3)]

/-! ## Rounding to the nearest double -/

theorem Num.fin_le_fin {a b : ℚ} : Num.fin a ≤ Num.fin b ↔ a ≤ b := by
  show Num.le (Num.fin a) (Num.fin b) = true ↔ a ≤ b
  simp [Num.le]

theorem Num.negInf_le (a : Num) : Num.negInf ≤ a := by
  show Num.le Num.negInf a = true
  cases a <;> rfl

theorem Num.le_posInf (a : Num) : a ≤ Num.posInf := by
  show Num.le a Num.posInf = true
  cases a <;> rfl

theorem roundHalfEven_mono {a b : ℚ} (h : a ≤ b) : roundHalfEven a ≤ roundHalfEven b := by
  have h1 : ⌊a⌋ ≤ ⌊b⌋ := Int.floor_mono h
  have ha0 : (⌊a⌋ : ℚ) ≤ a := Int.floor_le a
  have hb0 : (⌊b⌋ : ℚ) ≤ b := Int.floor_le b
  unfold roundHalfEven
  rcases lt_or_eq_of_le h1 with h2 | h2
  · split_ifs <;> omega
  · have h3 : (⌊a⌋ : ℚ) = (⌊b⌋ : ℚ) := by rw [h2]
    split_ifs <;> first | omega | (exfalso; linarith)

theorem roundHalfEven_intCast (k : ℤ) : roundHalfEven (k : ℚ) = k := by
  simp [roundHalfEven]

theorem roundAt_mono {g : ℚ} (hg : 0 < g) {a b : ℚ} (h : a ≤ b) : roundAt g a ≤ roundAt g b := by
  unfold roundAt
  apply mul_le_mul_of_nonneg_right _ hg.le
  exact_mod_cast roundHalfEven_mono (div_le_div_of_nonneg_right h hg.le)

theorem roundAt_multiple {g : ℚ} (hg : 0 < g) (k : ℤ) : roundAt g ((k : ℚ) * g) = (k : ℚ) * g := by
  unfold roundAt
  rw [mul_div_assoc, div_self hg.ne', mul_one, roundHalfEven_intCast]

theorem log2From_spec : ∀ (fuel n : Nat), n ≤ fuel → 1 ≤ n →
    2 ^ log2From fuel n ≤ n ∧ n < 2 ^ (log2From fuel n + 1)
  | 0, n, h, h1 => by omega
  | fuel + 1, n, h, h1 => by
    unfold log2From
    split
    · constructor <;> simp <;> omega
    · rename_i h2
      have ih := log2From_spec fuel (n / 2) (by omega) (by omega)
      obtain ⟨ih1, ih2⟩ := ih
      constructor
      · rw [Nat.pow_succ]
        have := (Nat.le_div_iff_mul_le (by decide : 0 < 2)).1 ih1
        exact this
      · rw [Nat.pow_succ]
        exact (Nat.div_lt_iff_lt_mul (by decide : 0 < 2)).1 ih2

theorem log2Nat_spec {n : Nat} (h : 1 ≤ n) : 2 ^ log2Nat n ≤ n ∧ n < 2 ^ (log2Nat n + 1) :=
  log2From_spec n n (Nat.le_refl _) h

theorem expOf_spec {q : ℚ} (hq : 0 < q) :
    (2 : ℚ) ^ expOf q ≤ q ∧ q < (2 : ℚ) ^ (expOf q + 1) := by
  have hnum : 0 < q.num := Rat.num_pos.2 hq
  have hn : 1 ≤ q.num.natAbs := by omega
  have hd : 1 ≤ q.den := q.den_pos
  obtain ⟨hn1, hn2⟩ := log2Nat_spec hn
  obtain ⟨hd1, hd2⟩ := log2Nat_spec hd
  have hN : ((q.num.natAbs : ℕ) : ℚ) = (q.num : ℚ) := by
    have h0 : ((q.num.natAbs : ℕ) : ℤ) = q.num := Int.natAbs_of_nonneg hnum.le
    rw [← Int.cast_natCast, h0]
  have hqe : q = (q.num.natAbs : ℚ) / (q.den : ℚ) := by
    rw [hN]
    exact (Rat.num_div_den q).symm
  have hA1 : (2 : ℚ) ^ log2Nat q.num.natAbs ≤ (q.num.natAbs : ℚ) := by exact_mod_cast hn1
  have hA2 : (q.num.natAbs : ℚ) < (2 : ℚ) ^ log2Nat q.num.natAbs * 2 := by
    have : q.num.natAbs < 2 ^ log2Nat q.num.natAbs * 2 := by
      rw [← Nat.pow_succ]; exact hn2
    exact_mod_cast this
  have hB1 : (2 : ℚ) ^ log2Nat q.den ≤ (q.den : ℚ) := by exact_mod_cast hd1
  have hB2 : (q.den : ℚ) < (2 : ℚ) ^ log2Nat q.den * 2 := by
    have : q.den < 2 ^ log2Nat q.den * 2 := by
      rw [← Nat.pow_succ]; exact hd2
    exact_mod_cast this
  have hA0 : (0 : ℚ) < (2 : ℚ) ^ log2Nat q.num.natAbs := by positivity
  have hB0 : (0 : ℚ) < (2 : ℚ) ^ log2Nat q.den := by positivity
  have hD0 : (0 : ℚ) < (q.den : ℚ) := by exact_mod_cast hd
  have he0 : (2 : ℚ) ^ ((log2Nat q.num.natAbs : ℤ) - (log2Nat q.den : ℤ))
      = (2 : ℚ) ^ log2Nat q.num.natAbs / (2 : ℚ) ^ log2Nat q.den := by
    rw [zpow_sub₀ (by norm_num : (2 : ℚ) ≠ 0), zpow_natCast, zpow_natCast]
  have hup : q < (2 : ℚ) ^ ((log2Nat q.num.natAbs : ℤ) - (log2Nat q.den : ℤ) + 1) := by
    rw [zpow_add_one₀ (by norm_num : (2 : ℚ) ≠ 0), he0]
    rw [div_mul_eq_mul_div]
    conv_lhs => rw [hqe]
    rw [div_lt_div_iff₀ hD0 hB0]
    generalize (2 : ℚ) ^ log2Nat q.num.natAbs = A at *
    generalize (2 : ℚ) ^ log2Nat q.den = B at *
    generalize (q.num.natAbs : ℚ) = N at *
    generalize (q.den : ℚ) = D at *
    nlinarith
  unfold expOf
  simp only
  split
  · rename_i h
    exact ⟨h, hup⟩
  · rename_i h
    constructor
    · rw [zpow_sub_one₀ (by norm_num : (2 : ℚ) ≠ 0), he0]
      rw [← div_eq_mul_inv, div_div]
      conv_rhs => rw [hqe]
      rw [div_le_div_iff₀ (by positivity) hD0]
      generalize (2 : ℚ) ^ log2Nat q.num.natAbs = A at *
      generalize (2 : ℚ) ^ log2Nat q.den = B at *
      generalize (q.num.natAbs : ℚ) = N at *
      generalize (q.den : ℚ) = D at *
      nlinarith
    · rw [sub_add_cancel]
      exact lt_of_not_le h

theorem two_zpow_mono {m n : ℤ} (h : m ≤ n) : (2 : ℚ) ^ m ≤ (2 : ℚ) ^ n :=
  zpow_le_zpow_right₀ (by norm_num) h

theorem expOf_mono {a b : ℚ} (ha : 0 < a) (h : a ≤ b) : expOf a ≤ expOf b := by
  by_contra hc
  have hlt : expOf b + 1 ≤ expOf a := by omega
  have h1 := (expOf_spec (lt_of_lt_of_le ha h)).2
  have h2 := (expOf_spec ha).1
  have h3 := two_zpow_mono hlt
  linarith

theorem two_zpow_pos (e : ℤ) : (0 : ℚ) < (2 : ℚ) ^ e :=
  zpow_pos (by norm_num) e

theorem quantum_pos (q : ℚ) : 0 < quantum q :=
  two_zpow_pos _

theorem two_zpow_multiple {p e : ℤ} (h : p ≤ e) : ∃ k : ℤ, (2 : ℚ) ^ e = (k : ℚ) * (2 : ℚ) ^ p := by
  refine ⟨2 ^ (e - p).toNat, ?_⟩
  have h1 : e = ((e - p).toNat : ℤ) + p := by
    rw [Int.toNat_of_nonneg (by omega)]
    omega
  conv_lhs => rw [h1]
  rw [zpow_add₀ (by norm_num : (2 : ℚ) ≠ 0), zpow_natCast]
  push_cast
  rfl

theorem roundAt_zero {g : ℚ} : roundAt g 0 = 0 := by
  unfold roundAt
  rw [zero_div]
  have h := roundHalfEven_intCast 0
  rw [Int.cast_zero] at h
  rw [h, Int.cast_zero, zero_mul]

theorem roundMagnitude_nonneg {q : ℚ} (hq : 0 ≤ q) : 0 ≤ roundMagnitude q := by
  unfold roundMagnitude
  have h := roundAt_mono (quantum_pos q) hq
  rwa [roundAt_zero] at h

theorem roundAt_two_zpow {p e : ℤ} (h : p ≤ e) :
    roundAt ((2 : ℚ) ^ p) ((2 : ℚ) ^ e) = (2 : ℚ) ^ e := by
  obtain ⟨k, hk⟩ := two_zpow_multiple h
  rw [hk]
  exact roundAt_multiple (two_zpow_pos p) k

theorem roundMagnitude_mono {a b : ℚ} (ha : 0 ≤ a) (h : a ≤ b) :
    roundMagnitude a ≤ roundMagnitude b := by
  rcases eq_or_lt_of_le ha with h0 | h0
  · subst h0
    have : roundMagnitude 0 = 0 := roundAt_zero
    rw [this]
    exact roundMagnitude_nonneg h
  · have he := expOf_mono h0 h
    have hb0 : 0 < b := lt_of_lt_of_le h0 h
    unfold roundMagnitude quantum
    rcases eq_or_lt_of_le (max_le_max (sub_le_sub_right he 52) (le_refl (-1074 : ℤ)))
      with hp | hp
    · rw [hp]
      exact roundAt_mono (two_zpow_pos _) h
    · have hpa : max (expOf a - 52) (-1074) ≤ expOf b := by
        have := le_max_left (expOf a - 52) (-1074)
        have := le_max_right (expOf a - 52) (-1074)
        rcases max_cases (expOf b - 52) (-1074) with ⟨h1, _⟩ | ⟨h1, _⟩ <;> omega
      have hpb : max (expOf b - 52) (-1074) ≤ expOf b := by
        have := le_max_right (expOf a - 52) (-1074)
        rcases max_cases (expOf b - 52) (-1074) with ⟨h1, _⟩ | ⟨h1, _⟩ <;> omega
      have hee : expOf a + 1 ≤ expOf b := by
        have := le_max_left (expOf a - 52) (-1074)
        have := le_max_right (expOf a - 52) (-1074)
        rcases max_cases (expOf b - 52) (-1074) with ⟨h1, _⟩ | ⟨h1, _⟩ <;> omega
      have h1 : a ≤ (2 : ℚ) ^ expOf b :=
        ((expOf_spec h0).2.le).trans (two_zpow_mono hee)
      have h2 : (2 : ℚ) ^ expOf b ≤ b := (expOf_spec hb0).1
      have h3 := roundAt_mono (two_zpow_pos (max (expOf a - 52) (-1074))) h1
      have h4 := roundAt_mono (two_zpow_pos (max (expOf b - 52) (-1074))) h2
      rw [roundAt_two_zpow hpa] at h3
      rw [roundAt_two_zpow hpb] at h4
      exact h3.trans h4

theorem roundFinite_mono {a b : ℚ} (h : a ≤ b) : roundFinite a ≤ roundFinite b := by
  unfold roundFinite
  by_cases ha : 0 ≤ a
  · have hb : 0 ≤ b := ha.trans h
    rw [if_pos ha, if_pos hb]
    exact roundMagnitude_mono ha h
  · rw [if_neg ha]
    have ha' : 0 ≤ -a := by linarith
    by_cases hb : 0 ≤ b
    · rw [if_pos hb]
      have h1 := roundMagnitude_nonneg ha'
      have h2 := roundMagnitude_nonneg hb
      linarith
    · rw [if_neg hb]
      have hb' : 0 ≤ -b := by linarith
      have := roundMagnitude_mono hb' (by linarith : -b ≤ -a)
      linarith

theorem overflow_mono {a b : ℚ} (h : a ≤ b) : overflow a ≤ overflow b := by
  have hpos : (0 : ℚ) < (2 : ℚ) ^ (1024 : ℤ) := two_zpow_pos _
  unfold overflow
  split_ifs <;>
    first
    | exact Num.le_posInf _
    | exact Num.negInf_le _
    | exact Num.fin_le_fin.2 h
    | (exfalso; linarith)

/-- Rounding to the nearest double is monotone. -/
theorem roundDouble_mono {a b : ℚ} (h : a ≤ b) : roundDouble a ≤ roundDouble b :=
  overflow_mono (roundFinite_mono h)

theorem roundDouble_zero : roundDouble 0 = Num.fin 0 := by decide!


/-! ## Lemmas on the indexed filter -/

theorem toNextMultiple_of_dvd {s i : Nat} (h : i % s = 0) : toNextMultiple s i = 0 := by
  simp [toNextMultiple, h]

theorem succ_mod_cases {s : Nat} (hs : 0 < s) (i : Nat) :
    (i % s + 1 < s ∧ (i + 1) % s = i % s + 1) ∨ (i % s + 1 = s ∧ (i + 1) % s = 0) := by
  have hlt : i % s < s := Nat.mod_lt _ hs
  have e : (i + 1) % s = (i % s + 1) % s := (Nat.mod_add_mod i s 1).symm
  by_cases h1 : i % s + 1 < s
  · left
    exact ⟨h1, by rw [e, Nat.mod_eq_of_lt h1]⟩
  · right
    have h2 : i % s + 1 = s := by omega
    exact ⟨h2, by rw [e, h2, Nat.mod_self]⟩

theorem toNextMultiple_succ_of_dvd {s i : Nat} (hs : 0 < s) (h : i % s = 0) :
    toNextMultiple s (i + 1) = s - 1 := by
  unfold toNextMultiple
  rcases succ_mod_cases hs i with ⟨h1, h2⟩ | ⟨h1, h2⟩
  · rw [h2, h, Nat.mod_eq_of_lt (by omega)]
  · rw [h2, Nat.sub_zero, Nat.mod_self]
    omega

theorem toNextMultiple_of_not_dvd {s i : Nat} (hs : 0 < s) (h : i % s ≠ 0) :
    toNextMultiple s i = toNextMultiple s (i + 1) + 1 := by
  unfold toNextMultiple
  rcases succ_mod_cases hs i with ⟨h1, h2⟩ | ⟨h1, h2⟩
  · rw [h2]
    generalize i % s = r at *
    rw [Nat.mod_eq_of_lt (by omega), Nat.mod_eq_of_lt (by omega)]
    omega
  · rw [h2, Nat.sub_zero, Nat.mod_self]
    generalize i % s = r at *
    rw [Nat.mod_eq_of_lt (by omega)]
    omega

/-- Entry `k` of the stride filter started at index `i` is the entry of the
input at the `k`-th multiple of the stride at or after `i`. -/
theorem filterIdxFrom_stride_getElem? {α : Type} {s : Nat} (hs : 0 < s) :
    ∀ (l : List α) (i k : Nat),
      (filterIdxFrom (fun _ j => j % s == 0) i l)[k]? = l[toNextMultiple s i + k * s]?
  | [], i, k => by simp [filterIdxFrom]
  | x :: xs, i, k => by
    by_cases h : i % s = 0
    · have hx : filterIdxFrom (fun _ j => j % s == 0) i (x :: xs)
          = x :: filterIdxFrom (fun _ j => j % s == 0) (i + 1) xs := by
        simp [filterIdxFrom, h]
      rw [hx, toNextMultiple_of_dvd h]
      cases k with
      | zero => simp
      | succ k =>
        rw [List.getElem?_cons_succ, filterIdxFrom_stride_getElem? hs xs (i + 1) k,
          toNextMultiple_succ_of_dvd hs h]
        have e : 0 + (k + 1) * s = (s - 1 + k * s) + 1 := by
          rw [Nat.succ_mul]; omega
        rw [e, List.getElem?_cons_succ]
    · have hx : filterIdxFrom (fun _ j => j % s == 0) i (x :: xs)
          = filterIdxFrom (fun _ j => j % s == 0) (i + 1) xs := by
        simp [filterIdxFrom, h]
      rw [hx, filterIdxFrom_stride_getElem? hs xs (i + 1) k, toNextMultiple_of_not_dvd hs h]
      have e : toNextMultiple s (i + 1) + 1 + k * s = (toNextMultiple s (i + 1) + k * s) + 1 := by
        omega
      rw [e, List.getElem?_cons_succ]

theorem sampleEvery_getElem? {α : Type} {s : Nat} (hs : 0 < s) (l : List α) (k : Nat) :
    (sampleEvery s l)[k]? = l[k * s]? := by
  unfold sampleEvery jsFilter
  rw [filterIdxFrom_stride_getElem? hs l 0 k, toNextMultiple_of_dvd (Nat.zero_mod s),
    Nat.zero_add]

theorem ceilDiv_le_iff {s : Nat} (hs : 0 < s) (L k : Nat) : ceilDiv L s ≤ k ↔ L ≤ k * s := by
  unfold ceilDiv
  rw [← Nat.lt_succ_iff, Nat.div_lt_iff_lt_mul hs, Nat.succ_mul]
  omega

theorem sampleEvery_length {α : Type} {s : Nat} (hs : 0 < s) (l : List α) :
    (sampleEvery s l).length = ceilDiv l.length s := by
  have key : ∀ k, (sampleEvery s l).length ≤ k ↔ l.length ≤ k * s := by
    intro k
    rw [← List.getElem?_eq_none_iff, sampleEvery_getElem? hs, List.getElem?_eq_none_iff]
  apply Nat.le_antisymm
  · exact (key _).2 ((ceilDiv_le_iff hs _ _).1 (Nat.le_refl _))
  · exact (ceilDiv_le_iff hs _ _).2 ((key _).1 (Nat.le_refl _))

theorem filterIdxFrom_sublist {α : Type} (p : α → Nat → Bool) :
    ∀ (l : List α) (i : Nat), (filterIdxFrom p i l).Sublist l
  | [], _ => by simp [filterIdxFrom]
  | x :: xs, i => by
    unfold filterIdxFrom
    split
    · exact (filterIdxFrom_sublist p xs (i + 1)).cons₂ x
    · exact (filterIdxFrom_sublist p xs (i + 1)).cons x

theorem sampleEvery_sublist {α : Type} (s : Nat) (l : List α) : (sampleEvery s l).Sublist l :=
  filterIdxFrom_sublist _ l 0

theorem sampleRate_pos (n : Nat) : 0 < sampleRate n := by
  unfold sampleRate
  omega

theorem sampleEvery_head? {α : Type} {s : Nat} (hs : 0 < s) (l : List α) :
    (sampleEvery s l).head? = l.head? := by
  have h := sampleEvery_getElem? hs l 0
  rw [Nat.zero_mul] at h
  rw [List.head?_eq_getElem?, List.head?_eq_getElem?]
  exact h

/-- C1: the single-series sampler keeps, with stride `s = max(1, floor(L/200))`
over the valid points `V` of length `L`, exactly `ceil(L/s)` points; its `k`-th
point is `V[k*s]` (an order-preserving subsequence of `V`), and its first point
is `V[0]`. -/
theorem C1_single_series_sampler (data : List Point) :
    (sampledData data).length
        = ceilDiv (validData data).length (max 1 ((validData data).length / 200))
      ∧ (∀ k : Nat, (sampledData data)[k]?
          = (validData data)[k * max 1 ((validData data).length / 200)]?)
      ∧ (sampledData data).Sublist (validData data)
      ∧ (sampledData data).head? = (validData data).head? :=
  ⟨sampleEvery_length (sampleRate_pos _) _,
   fun k => sampleEvery_getElem? (sampleRate_pos _) _ k,
   sampleEvery_sublist _ _,
   sampleEvery_head? (sampleRate_pos _) _⟩

/-! ## Outlier filter -/

theorem isValid_iff (d : Point) : isValid d = true ↔ ∃ v, d.2 = YVal.num v := by
  rcases d with ⟨x, y⟩
  cases y <;> simp [isValid, YVal.notNull, YVal.isNumberType, YVal.isNaN]

theorem validData_valid {data : List Point} {d : Point} (h : d ∈ validData data) :
    isValid d = true :=
  (List.mem_filter.1 h).2

theorem sampledData_valid {data : List Point} {d : Point} (h : d ∈ sampledData data) :
    isValid d = true :=
  validData_valid ((sampleEvery_sublist _ _).subset h)

theorem numbers_map_length_of_valid :
    ∀ (S : List Point), (∀ d ∈ S, isValid d = true) →
      (numbers (S.map (fun d => d.2))).length = S.length
  | [], _ => rfl
  | d :: ds, h => by
    obtain ⟨v, hv⟩ := (isValid_iff d).1 (h d (List.mem_cons_self _ _))
    have ih := numbers_map_length_of_valid ds (fun e he => h e (List.mem_cons_of_mem _ he))
    simp only [numbers, List.map_cons, hv, List.filterMap_cons, List.length_cons] at ih ⊢
    rw [ih]

theorem d3quantile_eq_spec (values : List YVal) (p : ℚ) (hn : 2 ≤ (numbers values).length)
    (hp0 : 0 < p) (hp1 : p < 1) :
    d3quantile values p = specQuantile (numbers values) p := by
  unfold d3quantile specQuantile interpolate
  have h0 : ¬ (numbers values).length = 0 := by omega
  have h1 : ¬ (p ≤ 0 ∨ (numbers values).length < 2) := by
    rintro (h | h)
    · exact absurd hp0 (not_lt.2 h)
    · omega
  have h2 : ¬ (1 ≤ p) := not_le.2 hp1
  simp only [h0, h1, h2, if_false, List.length_insertionSort]

theorem filterOutliers_eq_spec {S : List Point} (hv : ∀ d ∈ S, isValid d = true)
    (hn : 2 ≤ S.length) : filterOutliers S = specOutlierFilter S := by
  have hlen := numbers_map_length_of_valid S hv
  have hq1 := d3quantile_eq_spec (S.map (fun d => d.2)) (1 / 4)
    (by omega) (by norm_num) (by norm_num)
  have hq3 := d3quantile_eq_spec (S.map (fun d => d.2)) (3 / 4)
    (by omega) (by norm_num) (by norm_num)
  unfold filterOutliers specOutlierFilter
  apply List.filter_congr
  intro d hd
  obtain ⟨v, hdv⟩ := (isValid_iff d).1 (hv d hd)
  simp only [lowerBound, upperBound, hq1, hq3, hdv]
  generalize jsSub (specQuantile (numbers (S.map fun d => d.2)) (1 / 4))
    (jsMul (some (lit (3 / 2)))
      (jsSub (specQuantile (numbers (S.map fun d => d.2)) (3 / 4))
        (specQuantile (numbers (S.map fun d => d.2)) (1 / 4)))) = lower
  generalize jsAdd (specQuantile (numbers (S.map fun d => d.2)) (3 / 4))
    (jsMul (some (lit (3 / 2)))
      (jsSub (specQuantile (numbers (S.map fun d => d.2)) (3 / 4))
        (specQuantile (numbers (S.map fun d => d.2)) (1 / 4)))) = upper
  cases lower <;> cases upper <;> simp [jsGe, jsLe, YVal.toNumber]

theorem finalData_eq_spec (data : List Point) :
    finalData data
      = if 50 < (specOutlierFilter (sampledData data)).length
        then specOutlierFilter (sampledData data) else sampledData data := by
  unfold finalData filteredData
  by_cases hn : 2 ≤ (sampledData data).length
  · rw [filterOutliers_eq_spec (fun d hd => sampledData_valid hd) hn]
  · have h1 : (filterOutliers (sampledData data)).length ≤ (sampledData data).length :=
      List.length_filter_le _ _
    have h2 : (specOutlierFilter (sampledData data)).length ≤ (sampledData data).length :=
      List.length_filter_le _ _
    rw [if_neg (by omega), if_neg (by omega)]

/-- C2 (counterexample): on the 53 points `[i, 0.1]` (`i = 0 .. 13`),
`[i, 1.3]` (`i = 14 .. 51`), `[52, 3.1]` the quartiles are `0.1` and `1.3`;
computed exactly from these values, `Q3 + 1.5 * IQR` is not below `3.1`, so the
set `F` of the claim has all 53 points and the claim gives `F` as the result;
the code computes the bound in doubles, `3.0999999999999996`, drops
`[52, 3.1]`, and its result has 52 points. -/
theorem C2_counterexample :
    sampledData roundingInput = roundingInput
      ∧ finiteDoubles roundingInput = true
      ∧ (exactOutlierFilter (sampledData roundingInput)).length = 53
      ∧ upperBound (sampledData roundingInput)
          = some (lit (30999999999999996 / 10000000000000000))
      ∧ (finalData roundingInput).length = 52
      ∧ ¬ finalData roundingInput
          = (if 50 < (exactOutlierFilter (sampledData roundingInput)).length
             then exactOutlierFilter (sampledData roundingInput)
             else sampledData roundingInput) := by
  decide!

/-- C2 (amended): with `Q1`, `Q3`, `IQR` and the two bounds evaluated as the
code evaluates them, in double arithmetic (each operation rounded to the
nearest double), the result of the single-series outlier stage is the filtered
subsequence `F` of the sampled points `S` when `F` has more than 50 points and
is `S` itself otherwise; on `[[0,1],[1,2],[2,100],[3,3],[4,4]]` the point
`[2,100]` is filtered out, four points remain, and the result is all five
points. -/
theorem C2_outlier_filter_fallback (data : List Point) :
    finalData data
        = (if 50 < (specOutlierFilter (sampledData data)).length
           then specOutlierFilter (sampledData data) else sampledData data)
      ∧ sampledData exampleSingle = exampleSingle
      ∧ specOutlierFilter exampleSingle
          = [(0, YVal.num 1), (1, YVal.num 2), (3, YVal.num 3), (4, YVal.num 4)]
      ∧ (specOutlierFilter exampleSingle).length = 4
      ∧ finalData exampleSingle = exampleSingle :=
  ⟨finalData_eq_spec data, by decide!, by decide!, by decide!, by decide!⟩

/-! ## Sampling bounds -/

theorem densePoints_length (n : Nat) : (densePoints n).length = n := by
  unfold densePoints
  rw [List.length_map, List.length_range]

theorem validData_densePoints (n : Nat) : validData (densePoints n) = densePoints n := by
  unfold validData
  rw [List.filter_eq_self]
  intro d hd
  unfold densePoints at hd
  obtain ⟨i, _, rfl⟩ := List.mem_map.1 hd
  rfl

theorem sampledData_length (data : List Point) :
    (sampledData data).length
      = ceilDiv (validData data).length (sampleRate (validData data).length) :=
  sampleEvery_length (sampleRate_pos _) _

theorem sampledData_densePoints_399 : (sampledData (densePoints 399)).length = 399 := by
  rw [sampledData_length, validData_densePoints, densePoints_length]
  decide

/-- Arithmetic of the stride: `l` points sampled with the stride computed from
a length `L ≥ l` leave at most 399 points. -/
theorem ceilDiv_sampleRate_le {l L : Nat} (h : l ≤ L) : ceilDiv l (sampleRate L) ≤ 399 := by
  rw [ceilDiv_le_iff (sampleRate_pos L)]
  unfold sampleRate targetPoints
  rcases Nat.lt_or_ge L 400 with h4 | h4
  · have : L / 200 ≤ 1 := by omega
    have hm : max 1 (L / 200) = 1 := by omega
    rw [hm]
    omega
  · have h2 : 2 ≤ L / 200 := by omega
    have hm : max 1 (L / 200) = L / 200 := by omega
    rw [hm]
    have hL : L < 200 * (L / 200) + 200 := by omega
    generalize L / 200 = q at *
    omega

theorem seriesAt_length_le (k : Nat) (data : List MultiPoint) :
    (seriesAt k data).length ≤ data.length := by
  unfold seriesAt
  exact (List.length_filter_le _ _).trans (by simp)

theorem sampledSeriesAt_length (k : Nat) (data : List MultiPoint) :
    (sampledSeriesAt k data).length
      = ceilDiv (seriesAt k data).length (sampleRate data.length) :=
  sampleEvery_length (sampleRate_pos _) _

/-- C3 (evaluation at the failing input): a single-series input of 399 valid
points is sampled with stride `max(1, floor(399/200)) = 1`, so all 399 points
are kept, more than the 200 the source comment announces. -/
theorem C3_sampled_exceeds_target :
    (validData (densePoints 399)).length = 399
      ∧ sampleRate (validData (densePoints 399)).length = 1
      ∧ (sampledData (densePoints 399)).length = 399
      ∧ 200 < (sampledData (densePoints 399)).length := by
  refine ⟨?_, ?_, sampledData_densePoints_399, ?_⟩
  · rw [validData_densePoints, densePoints_length]
  · rw [validData_densePoints, densePoints_length]
    decide
  · rw [sampledData_densePoints_399]
    decide

/-- C10: every sampled series, single-series or multi-series, has at most 399
points; `ceil(l / max(1, floor(L/200))) ≤ 399` whenever `l ≤ L`; and 399 is
attained by a single-series input of 399 valid points. -/
theorem C10_sampling_bound_399 :
    (∀ data : List Point, (sampledData data).length ≤ 399)
      ∧ (∀ (data : List MultiPoint) (k : Nat), (sampledSeriesAt k data).length ≤ 399)
      ∧ (∀ L l : Nat, l ≤ L → ceilDiv l (max 1 (L / 200)) ≤ 399)
      ∧ (sampledData (densePoints 399)).length = 399 := by
  refine ⟨fun data => ?_, fun data k => ?_, fun L l h => ceilDiv_sampleRate_le h,
    sampledData_densePoints_399⟩
  · rw [sampledData_length]
    exact ceilDiv_sampleRate_le (Nat.le_refl _)
  · rw [sampledSeriesAt_length]
    exact ceilDiv_sampleRate_le (seriesAt_length_le k data)

/-- Witness of C10 at `L = 400`, `l = 399`. -/
theorem C10_sampling_bound_399_witness :
    399 ≤ 400 ∧ ceilDiv 399 (max 1 (400 / 200)) ≤ 399 :=
  ⟨by decide, C10_sampling_bound_399.2.2.1 400 399 (by decide)⟩

/-- C7 (counterexample): with 400 entries of which only the first two carry a
number in the first series, that series has `L = 2` valid points, so the
claimed stride is `max(1, floor(2/200)) = 1` and the claimed length 2, while
the code samples with the stride 2 computed from the 400 entries and keeps one
point. -/
theorem C7_counterexample :
    (seriesAt 0 sparseMulti).length = 2
      ∧ ceilDiv (seriesAt 0 sparseMulti).length
          (max 1 ((seriesAt 0 sparseMulti).length / 200)) = 2
      ∧ (sampledSeriesAt 0 sparseMulti).length = 1
      ∧ ¬ ((sampledSeriesAt 0 sparseMulti).length
            = ceilDiv (seriesAt 0 sparseMulti).length
                (max 1 ((seriesAt 0 sparseMulti).length / 200))) := by
  decide!

/-- C7 (amended): each series of a multi-series input is sampled with the one
stride `s = max(1, floor(D/200))` computed from the number `D` of input
entries; the sampled series has `ceil(L/s)` points, `L` being the number of
valid points of that series, and its `j`-th point is the point `j*s` of the
series. -/
theorem C7_multi_sampler_shared_stride (data : List MultiPoint) (k : Nat) :
    (sampledSeriesAt k data).length
        = ceilDiv (seriesAt k data).length (max 1 (data.length / 200))
      ∧ (∀ j : Nat, (sampledSeriesAt k data)[j]?
          = (seriesAt k data)[j * max 1 (data.length / 200)]?)
      ∧ (sampledSeriesAt k data).Sublist (seriesAt k data) :=
  ⟨sampledSeriesAt_length k data,
   fun j => sampleEvery_getElem? (sampleRate_pos _) _ j,
   sampleEvery_sublist _ _⟩

/-! ## Extremes -/

theorem mem_numbers {values : List YVal} {v : Num} : v ∈ numbers values ↔ YVal.num v ∈ values := by
  unfold numbers
  rw [List.mem_filterMap]
  constructor
  · rintro ⟨y, hy, h⟩
    cases y <;> simp at h
    subst h
    exact hy
  · intro h
    exact ⟨YVal.num v, h, rfl⟩

theorem foldl_minStep_some {α : Type} [LinearOrder α] : ∀ (vs : List α) (a : α),
    ∃ m, vs.foldl minStep (some a) = some m ∧ m ∈ a :: vs ∧ ∀ v ∈ a :: vs, m ≤ v
  | [], a => ⟨a, rfl, List.mem_cons_self _ _, by simp⟩
  | b :: vs, a => by
    by_cases h : b < a
    · obtain ⟨m, hm, hmem, hle⟩ := foldl_minStep_some vs b
      refine ⟨m, ?_, ?_, ?_⟩
      · simp only [List.foldl_cons, minStep, h, if_true]
        exact hm
      · exact List.mem_cons_of_mem _ hmem
      · intro v hv
        rcases List.mem_cons.1 hv with rfl | hv
        · exact (hle b (List.mem_cons_self _ _)).trans h.le
        · exact hle v hv
    · obtain ⟨m, hm, hmem, hle⟩ := foldl_minStep_some vs a
      refine ⟨m, ?_, ?_, ?_⟩
      · simp only [List.foldl_cons, minStep, h, if_false]
        exact hm
      · rcases List.mem_cons.1 hmem with rfl | hmem
        · exact List.mem_cons_self _ _
        · exact List.mem_cons_of_mem _ (List.mem_cons_of_mem _ hmem)
      · intro v hv
        rcases List.mem_cons.1 hv with rfl | hv
        · exact hle _ (List.mem_cons_self _ _)
        · rcases List.mem_cons.1 hv with rfl | hv
          · exact (hle a (List.mem_cons_self _ _)).trans (not_lt.1 h)
          · exact hle v (List.mem_cons_of_mem _ hv)

theorem foldl_maxStep_some {α : Type} [LinearOrder α] : ∀ (vs : List α) (a : α),
    ∃ m, vs.foldl maxStep (some a) = some m ∧ m ∈ a :: vs ∧ ∀ v ∈ a :: vs, v ≤ m
  | [], a => ⟨a, rfl, List.mem_cons_self _ _, by simp⟩
  | b :: vs, a => by
    by_cases h : a < b
    · obtain ⟨m, hm, hmem, hle⟩ := foldl_maxStep_some vs b
      refine ⟨m, ?_, ?_, ?_⟩
      · simp only [List.foldl_cons, maxStep, h, if_true]
        exact hm
      · exact List.mem_cons_of_mem _ hmem
      · intro v hv
        rcases List.mem_cons.1 hv with rfl | hv
        · exact h.le.trans (hle b (List.mem_cons_self _ _))
        · exact hle v hv
    · obtain ⟨m, hm, hmem, hle⟩ := foldl_maxStep_some vs a
      refine ⟨m, ?_, ?_, ?_⟩
      · simp only [List.foldl_cons, maxStep, h, if_false]
        exact hm
      · rcases List.mem_cons.1 hmem with rfl | hmem
        · exact List.mem_cons_self _ _
        · exact List.mem_cons_of_mem _ (List.mem_cons_of_mem _ hmem)
      · intro v hv
        rcases List.mem_cons.1 hv with rfl | hv
        · exact hle _ (List.mem_cons_self _ _)
        · rcases List.mem_cons.1 hv with rfl | hv
          · exact (not_lt.1 h).trans (hle a (List.mem_cons_self _ _))
          · exact hle v (List.mem_cons_of_mem _ hv)

/-- The result of the loop of `d3.min` on a non-empty list: an element of the
list that is below every element. -/
theorem minOf_spec {α : Type} [LinearOrder α] {values : List α} (h : values ≠ []) :
    ∃ m, minOf values = some m ∧ m ∈ values ∧ ∀ v ∈ values, m ≤ v := by
  unfold minOf
  cases values with
  | nil => exact absurd rfl h
  | cons a vs =>
    obtain ⟨m, hm, hmem, hle⟩ := foldl_minStep_some vs a
    exact ⟨m, by simpa [List.foldl_cons, minStep] using hm, hmem, hle⟩

/-- The result of the loop of `d3.max` on a non-empty list. -/
theorem maxOf_spec {α : Type} [LinearOrder α] {values : List α} (h : values ≠ []) :
    ∃ m, maxOf values = some m ∧ m ∈ values ∧ ∀ v ∈ values, v ≤ m := by
  unfold maxOf
  cases values with
  | nil => exact absurd rfl h
  | cons a vs =>
    obtain ⟨m, hm, hmem, hle⟩ := foldl_maxStep_some vs a
    exact ⟨m, by simpa [List.foldl_cons, maxStep] using hm, hmem, hle⟩

theorem numbers_ne_nil_of_mem {values : List YVal} {v : Num} (h : YVal.num v ∈ values) :
    numbers values ≠ [] :=
  List.ne_nil_of_mem (mem_numbers.2 h)

/-- The result of `d3.min` on values with at least one number. -/
theorem d3min_spec {values : List YVal} (h : numbers values ≠ []) :
    ∃ m, d3min values = some m ∧ YVal.num m ∈ values
      ∧ ∀ v, YVal.num v ∈ values → m ≤ v := by
  obtain ⟨m, hm, hmem, hle⟩ := minOf_spec h
  exact ⟨m, hm, mem_numbers.1 hmem, fun v hv => hle v (mem_numbers.2 hv)⟩

/-- The result of `d3.max` on values with at least one number. -/
theorem d3max_spec {values : List YVal} (h : numbers values ≠ []) :
    ∃ m, d3max values = some m ∧ YVal.num m ∈ values
      ∧ ∀ v, YVal.num v ∈ values → v ≤ m := by
  obtain ⟨m, hm, hmem, hle⟩ := maxOf_spec h
  exact ⟨m, hm, mem_numbers.1 hmem, fun v hv => hle v (mem_numbers.2 hv)⟩

/-! ## Single-series y-domain -/

theorem finalData_sublist (data : List Point) : (finalData data).Sublist (sampledData data) := by
  unfold finalData
  split
  · exact List.filter_sublist _
  · exact List.Sublist.refl _

theorem finalData_valid {data : List Point} {d : Point} (h : d ∈ finalData data) :
    isValid d = true :=
  sampledData_valid ((finalData_sublist data).subset h)

theorem finalData_subset_data {data : List Point} {d : Point} (h : d ∈ finalData data) :
    d ∈ data :=
  (List.mem_filter.1 ((sampleEvery_sublist _ _).subset ((finalData_sublist data).subset h))).1

theorem sampledData_ne_nil {data : List Point} (h : validData data ≠ []) :
    sampledData data ≠ [] := by
  intro hs
  have hh : (sampledData data).head? = (validData data).head? :=
    sampleEvery_head? (sampleRate_pos _) _
  rw [hs] at hh
  exact h (List.head?_eq_none_iff.1 hh.symm)

theorem finalData_ne_nil {data : List Point} (h : validData data ≠ []) :
    finalData data ≠ [] := by
  unfold finalData
  split
  · rename_i hlen
    intro hf
    rw [hf] at hlen
    simp at hlen
  · exact sampledData_ne_nil h

/-- Extent of the `y` values of a non-empty list of valid points. -/
theorem d3extent_valid {pts : List Point} (hne : pts ≠ [])
    (hv : ∀ d ∈ pts, isValid d = true) :
    ∃ lo hi, d3extent (pts.map (fun d => d.2)) = some (lo, hi)
      ∧ (∃ d ∈ pts, d.2 = YVal.num lo) ∧ (∃ d ∈ pts, d.2 = YVal.num hi)
      ∧ ∀ d ∈ pts, ∃ v, d.2 = YVal.num v ∧ lo ≤ v ∧ v ≤ hi := by
  obtain ⟨d0, hd0⟩ := List.exists_mem_of_ne_nil pts hne
  obtain ⟨v0, hv0⟩ := (isValid_iff d0).1 (hv d0 hd0)
  have hmem0 : YVal.num v0 ∈ pts.map (fun d => d.2) := List.mem_map.2 ⟨d0, hd0, hv0⟩
  obtain ⟨lo, hlo, hlomem, hlole⟩ := d3min_spec (numbers_ne_nil_of_mem hmem0)
  obtain ⟨hi, hhi, hhimem, hhile⟩ := d3max_spec (numbers_ne_nil_of_mem hmem0)
  refine ⟨lo, hi, ?_, ?_, ?_, ?_⟩
  · unfold d3min at hlo
    unfold d3max at hhi
    simp only [d3extent, extentOf, hlo, hhi]
  · obtain ⟨d, hd, hd2⟩ := List.mem_map.1 hlomem
    exact ⟨d, hd, hd2⟩
  · obtain ⟨d, hd, hd2⟩ := List.mem_map.1 hhimem
    exact ⟨d, hd, hd2⟩
  · intro d hd
    obtain ⟨v, hdv⟩ := (isValid_iff d).1 (hv d hd)
    have hm : YVal.num v ∈ pts.map (fun d => d.2) := List.mem_map.2 ⟨d, hd, hdv⟩
    exact ⟨v, hdv, hlole v hm, hhile v hm⟩

theorem finiteDoubles_mem {data : List Point} (h : finiteDoubles data = true) {d : Point}
    (hd : d ∈ data) {v : Num} (hv : d.2 = YVal.num v) : ∃ q, v = Num.fin q ∧ IsDouble q := by
  unfold finiteDoubles at h
  have h1 := List.all_eq_true.1 h d hd
  rw [hv] at h1
  cases v with
  | negInf => simp at h1
  | posInf => simp at h1
  | fin q => exact ⟨q, rfl, by simpa using h1⟩

/-! ## Padding in double arithmetic -/

theorem jsSub_fin (a b : ℚ) :
    jsSub (some (Num.fin a)) (some (Num.fin b)) = some (roundDouble (a - b)) := by
  simp [jsSub, Num.sub, Num.neg, Num.add, sub_eq_add_neg]

theorem jsAdd_fin (a b : ℚ) :
    jsAdd (some (Num.fin a)) (some (Num.fin b)) = some (roundDouble (a + b)) := rfl

theorem jsMul_fin (a b : ℚ) :
    jsMul (some (Num.fin a)) (some (Num.fin b)) = some (roundDouble (a * b)) := rfl

theorem roundDouble_nonneg {q : ℚ} (h : 0 ≤ q) : Num.fin 0 ≤ roundDouble q := by
  have := roundDouble_mono h
  rwa [roundDouble_zero] at this

theorem not_fin_le_negInf (a : ℚ) : ¬ Num.fin a ≤ Num.negInf := by
  show ¬ Num.le (Num.fin a) Num.negInf = true
  simp [Num.le]

/-- The padding `(b - a) * c` of a range `a ≤ b` with a positive factor is a
number that is not negative, and it is `0` when `a = b`. -/
theorem padding_spec {a b c : ℚ} (hab : a ≤ b) (hc : 0 < c) :
    ∃ pad, jsMul (jsSub (some (Num.fin b)) (some (Num.fin a))) (some (Num.fin c)) = some pad
      ∧ Num.fin 0 ≤ pad ∧ (a = b → pad = Num.fin 0) := by
  rw [jsSub_fin]
  have hr := roundDouble_nonneg (sub_nonneg.2 hab)
  cases hR : roundDouble (b - a) with
  | negInf =>
    rw [hR] at hr
    exact absurd hr (not_fin_le_negInf 0)
  | fin r =>
    rw [hR] at hr
    have hr0 : 0 ≤ r := Num.fin_le_fin.1 hr
    refine ⟨roundDouble (r * c), jsMul_fin r c, roundDouble_nonneg (mul_nonneg hr0 hc.le), ?_⟩
    intro hab'
    rw [hab', sub_self, roundDouble_zero] at hR
    cases hR
    rw [zero_mul, roundDouble_zero]
  | posInf =>
    refine ⟨Num.posInf, ?_, Num.le_posInf _, ?_⟩
    · simp [jsMul, Num.mul, Num.infMul, hc.ne', hc]
    · intro hab'
      rw [hab', sub_self, roundDouble_zero] at hR
      cases hR

/-- Subtracting a padding that is not negative from a double gives a number
at most that double, and the double itself when the padding is `0`. -/
theorem sub_pad_le {a : ℚ} (ha : IsDouble a) {pad : Num} (hp : Num.fin 0 ≤ pad) :
    ∃ lo, jsSub (some (Num.fin a)) (some pad) = some lo ∧ lo ≤ Num.fin a
      ∧ (pad = Num.fin 0 → lo = Num.fin a) := by
  cases pad with
  | negInf => exact absurd hp (not_fin_le_negInf 0)
  | fin t =>
    have ht : 0 ≤ t := Num.fin_le_fin.1 hp
    refine ⟨roundDouble (a - t), jsSub_fin a t, ?_, ?_⟩
    · have h1 := roundDouble_mono (by linarith : a - t ≤ a)
      rw [ha] at h1
      exact h1
    · intro h0
      cases h0
      rw [sub_zero]
      exact ha
  | posInf =>
    refine ⟨Num.negInf, rfl, Num.negInf_le _, ?_⟩
    intro h0
    cases h0

/-- Adding a padding that is not negative to a double gives a number at least
that double, and the double itself when the padding is `0`. -/
theorem add_pad_ge {b : ℚ} (hb : IsDouble b) {pad : Num} (hp : Num.fin 0 ≤ pad) :
    ∃ hi, jsAdd (some (Num.fin b)) (some pad) = some hi ∧ Num.fin b ≤ hi
      ∧ (pad = Num.fin 0 → hi = Num.fin b) := by
  cases pad with
  | negInf => exact absurd hp (not_fin_le_negInf 0)
  | fin t =>
    have ht : 0 ≤ t := Num.fin_le_fin.1 hp
    refine ⟨roundDouble (b + t), jsAdd_fin b t, ?_, ?_⟩
    · have h1 := roundDouble_mono (by linarith : b ≤ b + t)
      rw [hb] at h1
      exact h1
    · intro h0
      cases h0
      rw [add_zero]
      exact hb
  | posInf =>
    refine ⟨Num.posInf, rfl, Num.le_posInf _, ?_⟩
    intro h0
    cases h0

theorem lit_tenth : lit (1 / 10) = Num.fin (3602879701896397 / 36028797018963968) := by
  decide!

/-- The padded domain of a range `a ≤ b` of doubles with a positive factor
contains `[a, b]` and is the single point `[a, a]` when `a = b`. -/
theorem paddedDomain_spec {a b c : ℚ} (ha : IsDouble a) (hb : IsDouble b) (hab : a ≤ b)
    (hc : 0 < c) :
    ∃ lo hi, paddedDomain (some (Num.fin a)) (some (Num.fin b)) (Num.fin c) = (some lo, some hi)
      ∧ lo ≤ Num.fin a ∧ Num.fin b ≤ hi ∧ (a = b → lo = Num.fin a ∧ hi = Num.fin a) := by
  obtain ⟨pad, hpad, hp0, hpz⟩ := padding_spec hab hc
  obtain ⟨lo, hlo, hlole, hloz⟩ := sub_pad_le ha hp0
  obtain ⟨hi, hhi, hhige, hhiz⟩ := add_pad_ge hb hp0
  refine ⟨lo, hi, ?_, hlole, hhige, ?_⟩
  · unfold paddedDomain
    simp only [hpad, hlo, hhi]
  · intro hab'
    refine ⟨hloz (hpz hab'), ?_⟩
    rw [hhiz (hpz hab'), hab']

/-- C4 (counterexample): for the single-series input `[[0, 1]]` the y-extent
is `[1, 1]`, the padding is `0` and the y-domain is `[1, 1]`: the domain is a
single point and its lower end is not below `yMin`. -/
theorem C4_counterexample :
    validData onePoint = onePoint
      ∧ yExtent onePoint = some (1, 1)
      ∧ yDomain onePoint = (some 1, some 1)
      ∧ ¬ ∃ lo hi yMin yMax, yDomain onePoint = (some lo, some hi)
          ∧ yExtent onePoint = some (yMin, yMax) ∧ lo < yMin ∧ yMax < hi := by
  have h1 : yExtent onePoint = some (1, 1) := by decide!
  have h2 : yDomain onePoint = (some 1, some 1) := by decide!
  refine ⟨by decide!, h1, h2, ?_⟩
  rintro ⟨lo, hi, yMin, yMax, hd, he, hlt, _⟩
  rw [h2] at hd
  rw [h1] at he
  simp only [Option.some.injEq, Prod.mk.injEq] at hd he
  obtain ⟨rfl, rfl⟩ := hd
  obtain ⟨rfl, rfl⟩ := he
  exact lt_irrefl _ hlt

/-- Evaluation of the padding in doubles: for
`[[0, 0.3], [1, 0.30000000000000004]]` the two values differ, yet the padding
is absorbed by the rounding of `yMin - yPadding` and `yMax + yPadding`, and the
y-domain is exactly `[yMin, yMax]`. -/
theorem yDomain_padding_absorbed :
    yExtent nearPoints
        = some (lit (3 / 10), lit (30000000000000004 / 100000000000000000))
      ∧ yDomain nearPoints
        = (some (lit (3 / 10)), some (lit (30000000000000004 / 100000000000000000)))
      ∧ lit (3 / 10) < lit (30000000000000004 / 100000000000000000) := by
  decide!

/-- Evaluation of the y-domain on an infinite value: for `[[0, Infinity]]` the
range `Infinity - Infinity` is `NaN` and both ends of the y-domain are `NaN`. -/
theorem yDomain_infinite_value :
    validData infinitePoint = infinitePoint
      ∧ yExtent infinitePoint = some (Num.posInf, Num.posInf)
      ∧ yDomain infinitePoint = (none, none) := by
  decide!

/-- C4 (amended): for a single-series input with at least one valid point and
whose numbers are finite doubles, the y-domain is `[yMin - pad, yMax + pad]`
with `pad = (yMax - yMin) * 0.1`, every operation in double arithmetic, where
`yMin` and `yMax` are the least and greatest `y` of the final data; it contains
`[yMin, yMax]` (`lo ≤ yMin`, `yMax ≤ hi`), and it is the single point
`[yMin, yMin]` when all `y` values are equal. -/
theorem C4_y_domain_padding (data : List Point) (h : validData data ≠ [])
    (hfin : finiteDoubles data = true) :
    ∃ (yMin yMax : ℚ) (lo hi : Num),
      yExtent data = some (Num.fin yMin, Num.fin yMax)
      ∧ (∃ d ∈ finalData data, d.2 = YVal.num (Num.fin yMin))
      ∧ (∃ d ∈ finalData data, d.2 = YVal.num (Num.fin yMax))
      ∧ (∀ d ∈ finalData data, ∃ v, d.2 = YVal.num (Num.fin v) ∧ yMin ≤ v ∧ v ≤ yMax)
      ∧ yDomain data = (some lo, some hi)
      ∧ some lo = jsSub (some (Num.fin yMin))
          (jsMul (jsSub (some (Num.fin yMax)) (some (Num.fin yMin))) (some (lit (1 / 10))))
      ∧ some hi = jsAdd (some (Num.fin yMax))
          (jsMul (jsSub (some (Num.fin yMax)) (some (Num.fin yMin))) (some (lit (1 / 10))))
      ∧ lo ≤ Num.fin yMin ∧ Num.fin yMax ≤ hi
      ∧ (yMin = yMax → lo = Num.fin yMin ∧ hi = Num.fin yMin) := by
  obtain ⟨nMin, nMax, hext, ⟨dmin, hdmin, hdmin2⟩, ⟨dmax, hdmax, hdmax2⟩, hall⟩ :=
    d3extent_valid (finalData_ne_nil h) (fun d hd => finalData_valid hd)
  obtain ⟨a, rfl, ha⟩ := finiteDoubles_mem hfin (finalData_subset_data hdmin) hdmin2
  obtain ⟨b, rfl, hb⟩ := finiteDoubles_mem hfin (finalData_subset_data hdmax) hdmax2
  have hab : a ≤ b := by
    obtain ⟨v, hv, _, hv2⟩ := hall dmin hdmin
    rw [hdmin2] at hv
    cases hv
    exact Num.fin_le_fin.1 hv2
  have hc : (0 : ℚ) < 3602879701896397 / 36028797018963968 := by norm_num
  obtain ⟨lo, hi, hdom, hlo, hhi, hz⟩ := paddedDomain_spec ha hb hab hc
  have hy : yDomain data = (some lo, some hi) := by
    unfold yDomain yExtent
    rw [show d3extent ((finalData data).map fun d => d.2) = some (Num.fin a, Num.fin b) from hext,
      lit_tenth]
    exact hdom
  have hdom2 := hdom
  unfold paddedDomain at hdom2
  simp only [Prod.mk.injEq] at hdom2
  refine ⟨a, b, lo, hi, hext, ⟨dmin, hdmin, hdmin2⟩, ⟨dmax, hdmax, hdmax2⟩, ?_, hy, ?_, ?_,
    hlo, hhi, hz⟩
  · intro d hd
    obtain ⟨v, hv, h1, h2⟩ := hall d hd
    obtain ⟨q, rfl, _⟩ := finiteDoubles_mem hfin (finalData_subset_data hd) hv
    exact ⟨q, hv, Num.fin_le_fin.1 h1, Num.fin_le_fin.1 h2⟩
  · rw [lit_tenth]
    exact hdom2.1.symm
  · rw [lit_tenth]
    exact hdom2.2.symm

/-- Witness of C4 (amended) on the worked example of the specification. -/
theorem C4_y_domain_padding_witness :
    (validData exampleSingle ≠ [] ∧ finiteDoubles exampleSingle = true)
      ∧ ∃ (yMin yMax : ℚ) (lo hi : Num),
        yExtent exampleSingle = some (Num.fin yMin, Num.fin yMax)
        ∧ (∃ d ∈ finalData exampleSingle, d.2 = YVal.num (Num.fin yMin))
        ∧ (∃ d ∈ finalData exampleSingle, d.2 = YVal.num (Num.fin yMax))
        ∧ (∀ d ∈ finalData exampleSingle,
            ∃ v, d.2 = YVal.num (Num.fin v) ∧ yMin ≤ v ∧ v ≤ yMax)
        ∧ yDomain exampleSingle = (some lo, some hi)
        ∧ some lo = jsSub (some (Num.fin yMin))
            (jsMul (jsSub (some (Num.fin yMax)) (some (Num.fin yMin))) (some (lit (1 / 10))))
        ∧ some hi = jsAdd (some (Num.fin yMax))
            (jsMul (jsSub (some (Num.fin yMax)) (some (Num.fin yMin))) (some (lit (1 / 10))))
        ∧ lo ≤ Num.fin yMin ∧ Num.fin yMax ≤ hi
        ∧ (yMin = yMax → lo = Num.fin yMin ∧ hi = Num.fin yMin) :=
  ⟨⟨by decide, by decide!⟩, C4_y_domain_padding exampleSingle (by decide) (by decide!)⟩

/-! ## Multi-series scales -/

theorem seriesAt_valid {k : Nat} {data : List MultiPoint} {d : Point}
    (h : d ∈ seriesAt k data) : isValid d = true :=
  (List.mem_filter.1 h).2

theorem seriesAt_x_mem {k : Nat} {data : List MultiPoint} {d : Point}
    (h : d ∈ seriesAt k data) : ∃ e ∈ data, e.1 = d.1 := by
  obtain ⟨e, he, rfl⟩ := List.mem_map.1 (List.mem_filter.1 h).1
  exact ⟨e, he, rfl⟩

theorem filteredSeriesAt_sublist (k : Nat) (data : List MultiPoint) :
    (filteredSeriesAt k data).Sublist (sampledSeriesAt k data) :=
  List.filter_sublist _

theorem finalSeriesAt_sublist (k : Nat) (data : List MultiPoint) :
    (finalSeriesAt k data).Sublist (seriesAt k data) := by
  unfold finalSeriesAt
  split
  · exact (filteredSeriesAt_sublist k data).trans (sampleEvery_sublist _ _)
  · exact sampleEvery_sublist _ _

/-- C5 (evaluation at the failing input): in `outlierMulti` only four points
of the first series pass the outlier filter, so the fallback makes the sampled
series, with its point `[2, 100]`, the final series that is drawn; the
y-domain is computed from the filtered series and is `[0.4, 5.6]`, so the drawn
value `100` lies outside it. -/
theorem C5_fallback_point_outside_domain :
    (filteredSeriesAt 0 outlierMulti).length = 4
      ∧ finalSeriesAt 0 outlierMulti = sampledSeriesAt 0 outlierMulti
      ∧ (2, YVal.num 100) ∈ finalSeriesAt 0 outlierMulti
      ∧ yDomainMulti outlierMulti = (some (lit (2 / 5)), some (lit (28 / 5)))
      ∧ lit (28 / 5) < 100 := by
  decide!

/-- C6 (counterexample): in `gapMulti` the only drawn points have `x = 0`, so
`[min(x), max(x)]` over the final point set is `[0, 0]`, while the x-domain,
taken over the input entries, is `[0, 1]`. -/
theorem C6_counterexample :
    drawnPoints gapMulti = [(0, YVal.num 1), (0, YVal.num 1), (0, YVal.num 1)]
      ∧ extentOf ((drawnPoints gapMulti).map (fun d => d.1)) = some (0, 0)
      ∧ xDomainMulti gapMulti = some (0, 1)
      ∧ ¬ xDomainMulti gapMulti
          = extentOf ((drawnPoints gapMulti).map (fun d => d.1)) := by
  decide!

/-- C6 (amended): for every non-empty multi-series input, the x-domain is
`[min(x), max(x)]` taken over the `x` of all input entries (not over the
sampled and filtered series); it contains the `x` of every drawn point. -/
theorem C6_multi_x_domain_over_input (data : List MultiPoint) (h : data ≠ []) :
    ∃ lo hi, xDomainMulti data = some (lo, hi)
      ∧ (∃ e ∈ data, e.1 = lo) ∧ (∃ e ∈ data, e.1 = hi)
      ∧ (∀ e ∈ data, lo ≤ e.1 ∧ e.1 ≤ hi)
      ∧ (∀ d ∈ drawnPoints data, lo ≤ d.1 ∧ d.1 ≤ hi) := by
  have hne : data.map (fun d => d.1) ≠ [] := by
    intro hm
    exact h (List.map_eq_nil_iff.1 hm)
  obtain ⟨lo, hlo, hlomem, hlole⟩ := minOf_spec hne
  obtain ⟨hi, hhi, hhimem, hhile⟩ := maxOf_spec hne
  have hin : ∀ e ∈ data, lo ≤ e.1 ∧ e.1 ≤ hi := fun e he =>
    ⟨hlole _ (List.mem_map.2 ⟨e, he, rfl⟩), hhile _ (List.mem_map.2 ⟨e, he, rfl⟩)⟩
  refine ⟨lo, hi, ?_, ?_, ?_, hin, ?_⟩
  · simp only [xDomainMulti, extentOf, hlo, hhi]
  · obtain ⟨e, he, hx⟩ := List.mem_map.1 hlomem
    exact ⟨e, he, hx⟩
  · obtain ⟨e, he, hx⟩ := List.mem_map.1 hhimem
    exact ⟨e, he, hx⟩
  · intro d hd
    have hs : ∃ k, d ∈ seriesAt k data := by
      unfold drawnPoints at hd
      rw [List.mem_append, List.mem_append] at hd
      rcases hd with (hd | hd) | hd
      · exact ⟨0, (finalSeriesAt_sublist 0 data).subset hd⟩
      · exact ⟨1, (finalSeriesAt_sublist 1 data).subset hd⟩
      · exact ⟨2, (finalSeriesAt_sublist 2 data).subset hd⟩
    obtain ⟨k, hk⟩ := hs
    obtain ⟨e, he, hx⟩ := seriesAt_x_mem hk
    rw [← hx]
    exact hin e he

/-- Witness of C6 (amended) on `gapMulti`. -/
theorem C6_multi_x_domain_over_input_witness :
    gapMulti ≠ []
      ∧ ∃ lo hi, xDomainMulti gapMulti = some (lo, hi)
        ∧ (∃ e ∈ gapMulti, e.1 = lo) ∧ (∃ e ∈ gapMulti, e.1 = hi)
        ∧ (∀ e ∈ gapMulti, lo ≤ e.1 ∧ e.1 ≤ hi)
        ∧ (∀ d ∈ drawnPoints gapMulti, lo ≤ d.1 ∧ d.1 ≤ hi) :=
  ⟨by decide, C6_multi_x_domain_over_input gapMulti (by decide)⟩

/-! ## Line generator -/

theorem lineRuns_all_defined (defined : Point → Bool) :
    ∀ (l run : List Point), (∀ d ∈ l, defined d = true) →
      lineRuns defined l (some run) = [run ++ l]
  | [], run, _ => by simp [lineRuns]
  | d :: ds, run, h => by
    have hd : defined d = true := h d (List.mem_cons_self _ _)
    have ih := lineRuns_all_defined defined ds (run ++ [d])
      (fun e he => h e (List.mem_cons_of_mem _ he))
    simp only [lineRuns, hd, if_true, ih, List.append_assoc, List.singleton_append]

theorem lineRuns_none_all_defined (defined : Point → Bool) (l : List Point)
    (h : ∀ d ∈ l, defined d = true) :
    lineRuns defined l none = [l] ∨ (l = [] ∧ lineRuns defined l none = []) := by
  cases l with
  | nil => exact Or.inr ⟨rfl, rfl⟩
  | cons d ds =>
    left
    have hd : defined d = true := h d (List.mem_cons_self _ _)
    have ih := lineRuns_all_defined defined ds [d] (fun e he => h e (List.mem_cons_of_mem _ he))
    simp only [lineRuns, hd, if_true, ih, List.singleton_append]

theorem lineDefined_of_valid {d : Point} (h : isValid d = true) : lineDefined d = true := by
  obtain ⟨v, hv⟩ := (isValid_iff d).1 h
  simp [lineDefined, hv, YVal.notNull]

theorem validData_remove_null (l1 l2 : List Point) (x : ℚ) :
    validData (l1 ++ (x, YVal.null) :: l2) = validData (l1 ++ l2) := by
  unfold validData
  have hx : ¬ isValid (x, YVal.null) = true := by
    simp [isValid, YVal.notNull]
  rw [List.filter_append, List.filter_append, List.filter_cons_of_neg hx]

theorem finalData_remove_null (l1 l2 : List Point) (x : ℚ) :
    finalData (l1 ++ (x, YVal.null) :: l2) = finalData (l1 ++ l2) := by
  simp only [finalData, filteredData, sampledData, validData_remove_null]

/-- C8 (counterexample): for `[[0, 1], [1, null], [2, 3]]` the null point is
removed by the validity filter, the line generator receives
`[[0, 1], [2, 3]]` and draws one sub-path through both points. -/
theorem C8_counterexample :
    finalData gapSingle = [(0, YVal.num 1), (2, YVal.num 3)]
      ∧ subPaths gapSingle = [[(0, YVal.num 1), (2, YVal.num 3)]]
      ∧ ¬ 2 ≤ (subPaths gapSingle).length := by
  decide!

/-- C8 (amended): for every single-series input, points with `null` as `y`
are removed before sampling, so every point handed to the line generator
satisfies its `defined` predicate and the generator yields one sub-path, the
whole final data (none when there is no valid point); removing a null point
from the input does not change the final data. -/
theorem C8_nulls_removed_single_sub_path (data : List Point) :
    (∀ d ∈ finalData data, lineDefined d = true)
      ∧ (subPaths data = [finalData data] ∨ (finalData data = [] ∧ subPaths data = []))
      ∧ (subPaths data).length ≤ 1
      ∧ (∀ (l1 l2 : List Point) (x : ℚ),
          finalData (l1 ++ (x, YVal.null) :: l2) = finalData (l1 ++ l2)) := by
  have hdef : ∀ d ∈ finalData data, lineDefined d = true :=
    fun d hd => lineDefined_of_valid (finalData_valid hd)
  have hruns := lineRuns_none_all_defined lineDefined (finalData data) hdef
  refine ⟨hdef, hruns, ?_, finalData_remove_null⟩
  unfold subPaths
  rcases hruns with h | ⟨_, h⟩ <;> rw [h] <;> simp

/-- Witness of C8 (amended) on `[[0, 1], [1, null], [2, 3]]`. -/
theorem C8_nulls_removed_single_sub_path_witness :
    ((0 : ℚ), YVal.num 1) ∈ finalData gapSingle ∧ lineDefined ((0 : ℚ), YVal.num 1) = true :=
  ⟨by decide!,
   (C8_nulls_removed_single_sub_path gapSingle).1 (0, YVal.num 1) (by decide!)⟩

/-! ## Debounced resize -/

theorem onResize_init (t : Nat) :
    (onResize t ResizeState.init).timers = [{ id := 1, due := t + 100 }]
      ∧ (onResize t ResizeState.init).resizeTimeout = some 1
      ∧ (onResize t ResizeState.init).renders = [] := by
  simp [onResize, handleResize, fireDue, ResizeState.init, clearTimeout, resizeDelay]

theorem onResize_pending {s : ResizeState} {i t u : Nat}
    (ht : s.timers = [{ id := i, due := t + 100 }]) (hr : s.resizeTimeout = some i)
    (hn : s.renders = []) (hlt : u < t + 100) :
    (onResize u s).timers = [{ id := s.nextId, due := u + 100 }]
      ∧ (onResize u s).resizeTimeout = some s.nextId
      ∧ (onResize u s).renders = [] := by
  have h1 : ¬ (t + 100 ≤ u) := by omega
  simp [onResize, handleResize, fireDue, clearTimeout, resizeDelay, ht, hr, hn, hlt, h1]

/-- Invariant of a burst of close signals: after each signal exactly one timer
is pending, due 100 ms after that signal, and no render has happened. -/
theorem afterSignals_pending :
    ∀ (ts : List Nat) (t : Nat) (s : ResizeState) (i : Nat),
      s.timers = [{ id := i, due := t + 100 }] → s.resizeTimeout = some i → s.renders = [] →
      closeSignals (t :: ts) = true →
      (∃ j, (afterSignals ts s).timers
              = [{ id := j, due := (t :: ts).getLast (List.cons_ne_nil _ _) + 100 }])
        ∧ (afterSignals ts s).renders = []
        ∧ ∀ u ∈ resizeTrace ts s, u.timers.length = 1
  | [], t, s, i, ht, _, hn, _ => ⟨⟨i, ht⟩, hn, by simp [resizeTrace]⟩
  | u :: ts, t, s, i, ht, hr, hn, hc => by
    have hc2 : (t ≤ u ∧ u < t + 100) ∧ closeSignals (u :: ts) = true := by
      simpa [closeSignals, resizeDelay, Bool.and_eq_true] using hc
    obtain ⟨h1, h2, h3⟩ := onResize_pending ht hr hn hc2.1.2
    obtain ⟨⟨j, hj⟩, hren, htr⟩ := afterSignals_pending ts u (onResize u s) _ h1 h2 h3 hc2.2
    refine ⟨⟨j, ?_⟩, hren, ?_⟩
    · rw [List.getLast_cons (List.cons_ne_nil u ts)]
      exact hj
    · intro w hw
      simp only [resizeTrace, List.mem_cons] at hw
      rcases hw with rfl | hw
      · rw [h1]; rfl
      · exact htr w hw

/-- C9: for every non-empty sequence of resize signals in which consecutive
signals are less than 100 ms apart and after which no signal follows, no
render happens during the burst, exactly one `renderChart` call happens, 100 ms
after the last signal, and at every moment at most one timer is pending. -/
theorem C9_debounce_collapse (ts : List Nat) (h : ts ≠ []) (hc : closeSignals ts = true) :
    (afterSignals ts ResizeState.init).renders = []
      ∧ (settle (afterSignals ts ResizeState.init)).renders = [ts.getLast h + 100]
      ∧ (settle (afterSignals ts ResizeState.init)).timers = []
      ∧ (∀ u ∈ resizeTrace ts ResizeState.init, u.timers.length ≤ 1) := by
  cases ts with
  | nil => exact absurd rfl h
  | cons t ts =>
    obtain ⟨h1, h2, h3⟩ := onResize_init t
    obtain ⟨⟨j, hj⟩, hren, htr⟩ :=
      afterSignals_pending ts t (onResize t ResizeState.init) 1 h1 h2 h3 hc
    have hfold : afterSignals (t :: ts) ResizeState.init
        = afterSignals ts (onResize t ResizeState.init) := rfl
    rw [hfold]
    refine ⟨hren, ?_, rfl, ?_⟩
    · simp only [settle, hren, hj, List.map_cons, List.map_nil, List.nil_append]
    · intro w hw
      simp only [resizeTrace, List.mem_cons] at hw
      rcases hw with rfl | hw
      · rw [h1]; exact Nat.le_refl _
      · exact (htr w hw).le

/-- Witness of C9 on the signals at 0, 40, 90 and 180 ms: the single render
happens at 280 ms. -/
theorem C9_debounce_collapse_witness :
    ([0, 40, 90, 180] : List Nat) ≠ [] ∧ closeSignals [0, 40, 90, 180] = true
      ∧ (afterSignals [0, 40, 90, 180] ResizeState.init).renders = []
      ∧ (settle (afterSignals [0, 40, 90, 180] ResizeState.init)).renders
          = [([0, 40, 90, 180] : List Nat).getLast (by decide) + 100]
      ∧ (settle (afterSignals [0, 40, 90, 180] ResizeState.init)).timers = []
      ∧ (∀ u ∈ resizeTrace [0, 40, 90, 180] ResizeState.init, u.timers.length ≤ 1) :=
  ⟨by decide, by decide, C9_debounce_collapse [0, 40, 90, 180] (by decide) (by decide)⟩

end Chart
